import Mathlib

/-!
Shallow embedding of the `httpio` request decoder (package `httpio`,
functions `Unmarshal`, `decode`, `findInTag`, `getValue`, `setField`,
`appendWithDelimiter`, `popWithDelimiter`) together with theorems about
its behaviour.

Modelling conventions:
* Go byte slices (`[]byte`) are modelled as `List Char`; `stringBytes` /
  `bytesString` become `String.data` / `String.mk`.
* `*http.Request` is modelled by the parts the decoder reads: the header
  table (keys stored in canonical form, `Header.Get` is first-match),
  the parsed query table (`r.URL.Query()`), the parsed cookie pairs and
  the raw body.
* A reflective destination value (`reflect.Value`, which carries both a
  type and a value) is modelled by the inductive `Val`.  A nil pointer
  `vPtrNil z` carries the zero value `z` of its pointee type, which is
  what `reflect.New(t.Elem())` allocates when the code sets a nil
  pointer.  Machine integers are `Int`/`Nat` with explicit wrapping by
  `% 2 ^ w` where the reflective `SetInt`/`SetUint` stores into a
  `w`-bit field.
* In-place mutation through pointers is modelled by returning the
  updated value next to the error, so a partially mutated destination
  is observable exactly as in the source.
* The `encoding/json` decoder and the process-global
  `currentPathLookuper` hook are external code; they are passed as
  explicit function parameters (`JsonDecoder`, `PathLookuper`).
-/

namespace Httpio

/-- Struct-tag table of one field, as `reflect.StructTag.Lookup` sees it:
an association list from tag key (`"query"`, `"json"`, ...) to tag value. -/
abbrev Tags := List (String × String)

/-- Models `reflect.StructTag.Lookup`: first entry for the key, if any. -/
def lookupTag (tags : Tags) (key : String) : Option String :=
  (tags.find? (fun p => p.1 == key)).map (fun p => p.2)

/-- The request facets read by the decoder (see module docstring). -/
structure Request where
  headers : List (String × String)
  queryTable : List (String × List String)
  cookies : List (String × String)
  body : String

/-- Models `r.Header.Get`: first value stored under the name, else `""`. -/
def headerGet (r : Request) (key : String) : String :=
  ((r.headers.find? (fun p => p.1 == key)).map (fun p => p.2)).getD ""

/-- Models `url.Values` lookup `queryVals[name]`. -/
def lookupQ (q : List (String × List String)) (key : String) : Option (List String) :=
  (q.find? (fun p => p.1 == key)).map (fun p => p.2)

/-- Models lines 156-160 of `getValue`: the first query value for the key,
absent when the key is missing or has no values. -/
def queryFirst (q : List (String × List String)) (key : String) : Option String :=
  match lookupQ q key with
  | some (v :: _) => some v
  | _ => none

/-- Models `r.Cookie(name)`: first request cookie with that name. -/
def requestCookie (r : Request) (name : String) : Option String :=
  ((r.cookies.find? (fun p => p.1 == name)).map (fun p => p.2))

/-- Models `(*decodeIn).findCookieVal`: linear scan of the parsed-cookie cache. -/
def findCookieVal (parsed : List (String × String)) (name : String) : Option String :=
  ((parsed.find? (fun p => p.1 == name)).map (fun p => p.2))

/-- The `tagType` enumeration of the source. -/
inductive TagType where
  | none
  | query
  | path
  | header
  | cookie
deriving DecidableEq, Repr

/-- Error kinds of the decoder, named as in the specification:
`invalidDestination` is `"destination must be a non-nil pointer"`,
`bodyDecode` wraps a JSON decode failure, `unsupportedType` is
`"unsupported type: %v"` carrying the offending kind, and
`invalidNumber` is a `strconv` parse failure carrying the raw input. -/
inductive Err where
  | invalidDestination
  | bodyDecode (msg : String)
  | unsupportedType (kind : String)
  | invalidNumber (raw : String)
deriving DecidableEq, Repr

/-- A reflective destination value (type and value together).
`vInt w n` / `vUint w n` are `w`-bit machine integers holding `n`;
`vPtrNil z` is a nil pointer whose pointee type has zero value `z`;
`vStruct` carries per-field tag tables next to the field values;
`vUnsup k` stands for any value of a kind `k` (slice, map, func, ...)
that the decoder supports nowhere. -/
inductive Val where
  | vStr (s : String)
  | vInt (w : Nat) (n : Int)
  | vUint (w : Nat) (n : Nat)
  | vFloat (q : Rat)
  | vBool (b : Bool)
  | vPtrNil (zero : Val)
  | vPtrSome (elem : Val)
  | vStruct (fields : List (Tags × Val))
  | vUnsup (kind : String)

/-- The `reflect.Kind` name rendered into `unsupported type: %v` messages. -/
def kindName : Val → String
  | .vStr _ => "string"
  | .vInt _ _ => "int"
  | .vUint _ _ => "uint"
  | .vFloat _ => "float64"
  | .vBool _ => "bool"
  | .vPtrNil _ => "ptr"
  | .vPtrSome _ => "ptr"
  | .vStruct _ => "struct"
  | .vUnsup k => k

/-- Models `field.Type.Kind() == reflect.Struct` (line 81). -/
def isStructVal : Val → Bool
  | .vStruct _ => true
  | _ => false

/-- Models `tag, ok := Lookup(key); ok && tag != ""`, the per-key test of
`findInTag` (lines 120-131). -/
def tagNonEmpty (tags : Tags) (key : String) : Option String :=
  match lookupTag tags key with
  | some tag => if tag = "" then none else some tag
  | none => none

/-- Models `findInTag` (lines 118-134): try `query`, `path`, `header`,
`cookie` in that order, taking the first key present with a non-empty
value; the name is returned as bytes (`stringBytes`). -/
def findInTag (tags : Tags) : Option (List Char × TagType) :=
  match tagNonEmpty tags "query" with
  | some tag => some (tag.data, .query)
  | none =>
  match tagNonEmpty tags "path" with
  | some tag => some (tag.data, .path)
  | none =>
  match tagNonEmpty tags "header" with
  | some tag => some (tag.data, .header)
  | none =>
  match tagNonEmpty tags "cookie" with
  | some tag => some (tag.data, .cookie)
  | none => none

/-- The type of the pluggable path lookuper (`type pathLookuper`), with
`(string, bool)` modelled as `Option String`. -/
abbrev PathLookuper := Request → String → Option String

/-- Models `defaultPathLookuper`: always reports absent. -/
def defaultPathLookuper : PathLookuper := fun _ _ => Option.none

/-- The per-call state `decodeIn`: the request, the lazily-built query
table and the lazily-grown parsed-cookie cache. -/
structure DecodeIn where
  r : Request
  queryVals : Option (List (String × List String))
  parsedCookies : List (String × String)

/-- Models `getValue` (lines 150-178).  The path lookuper stands for the
process-global `currentPathLookuper`.  Returns the updated `decodeIn`
next to the `(string, bool)` result. -/
def getValue (pl : PathLookuper) (din : DecodeIn) (name : List Char) (tt : TagType) :
    DecodeIn × Option String :=
  match tt with
  | .query =>
    match din.queryVals with
    | some qv => (din, queryFirst qv (String.mk name))
    | none =>
      let qv := din.r.queryTable
      ({ din with queryVals := some qv }, queryFirst qv (String.mk name))
  | .path => (din, pl din.r (String.mk name))
  | .header => (din, some (headerGet din.r (String.mk name)))
  | .cookie =>
    match findCookieVal din.parsedCookies (String.mk name) with
    | some v => (din, some v)
    | none =>
      match requestCookie din.r (String.mk name) with
      | none => (din, none)
      | some cv =>
        ({ din with parsedCookies := din.parsedCookies ++ [(String.mk name, cv)] }, some cv)
  | .none => (din, none)

/-- One decimal digit, as `strconv` reads it. -/
def digitVal (c : Char) : Option Nat :=
  if '0' ≤ c ∧ c ≤ '9' then some (c.toNat - '0'.toNat) else none

/-- A non-empty run of decimal digits folded into a number. -/
def parseDigits (l : List Char) : Option Nat :=
  match l with
  | [] => none
  | _ => l.foldlM (fun acc c => (digitVal c).map (fun d => acc * 10 + d)) 0

/-- Models `strconv.ParseUint(value, 10, 64)`: digits only (no sign), with
the 64-bit range check; `none` covers both syntax and range errors. -/
def parseUint64 (s : String) : Option Nat :=
  match parseDigits s.data with
  | some n => if n < 2 ^ 64 then some n else none
  | none => none

/-- Models `strconv.ParseInt(value, 10, 64)`: optional sign, digits, and
the 64-bit range check. -/
def parseInt64 (s : String) : Option Int :=
  match s.data with
  | '+' :: rest =>
    match parseDigits rest with
    | some n => if (n : Int) ≤ 2 ^ 63 - 1 then some (n : Int) else none
    | none => none
  | '-' :: rest =>
    match parseDigits rest with
    | some n => if (n : Int) ≤ 2 ^ 63 then some (-(n : Int)) else none
    | none => none
  | l =>
    match parseDigits l with
    | some n => if (n : Int) ≤ 2 ^ 63 - 1 then some (n : Int) else none
    | none => none

/-- Value of an integer-dot-fraction digit string as an exact rational. -/
def ratOfDigits (ip fp : List Char) : Option Rat :=
  match parseDigits (ip ++ fp) with
  | some n => some ((n : Rat) / (10 : Rat) ^ fp.length)
  | none => none

/-- Models the decimal core of `strconv.ParseFloat(value, 64)`: optional
sign, digits with an optional fractional part, optional decimal
exponent.  The hexadecimal, `inf` and `nan` forms and IEEE-754 rounding
are not modelled; no theorem below depends on float parsing. -/
def parseFloat (s : String) : Option Rat :=
  let mantissa : List Char → Option Rat := fun l =>
    let ip := l.takeWhile (fun c => c.isDigit)
    match l.dropWhile (fun c => c.isDigit) with
    | [] => ratOfDigits ip []
    | '.' :: fr =>
      let fp := fr.takeWhile (fun c => c.isDigit)
      match fr.dropWhile (fun c => c.isDigit) with
      | [] => if ip = [] ∧ fp = [] then none else ratOfDigits ip fp
      | _ => none
    | _ => none
  let core : List Char → Option Rat := fun l =>
    let m := l.takeWhile (fun c => c ≠ 'e' ∧ c ≠ 'E')
    match l.dropWhile (fun c => c ≠ 'e' ∧ c ≠ 'E') with
    | [] => mantissa m
    | _ :: ex =>
      let expPart : List Char → Option Int := fun e =>
        match e with
        | '+' :: d => (parseDigits d).map (fun n => (n : Int))
        | '-' :: d => (parseDigits d).map (fun n => -(n : Int))
        | d => (parseDigits d).map (fun n => (n : Int))
      match mantissa m, expPart ex with
      | some q, some e => some (q * (10 : Rat) ^ e)
      | _, _ => none
  match s.data with
  | '+' :: rest => core rest
  | '-' :: rest => (core rest).map (fun q => -q)
  | l => core l

/-- Two's-complement wrap of an integer into `w` bits: what storing via
`reflect.Value.SetInt` into a `w`-bit signed field does (`int8(x)`, ...). -/
def wrapInt (w : Nat) (x : Int) : Int :=
  (x + 2 ^ (w - 1)) % 2 ^ w - 2 ^ (w - 1)

/-- Models `setField` (lines 180-220).  Returns the updated value next to
the error; a nil pointer is allocated (`reflect.New`) before descending,
and stays allocated even when the inner coercion then fails.
`SetInt`/`SetUint` truncate to the field's width, as the reflective
setters do. -/
def setField (v : Val) (value : String) : Val × Option Err :=
  match v with
  | .vPtrNil z =>
    let res := setField z value
    (.vPtrSome res.1, res.2)
  | .vPtrSome e =>
    let res := setField e value
    (.vPtrSome res.1, res.2)
  | .vStr _ => (.vStr value, none)
  | .vInt w n =>
    match parseInt64 value with
    | none => (.vInt w n, some (.invalidNumber value))
    | some x => (.vInt w (wrapInt w x), none)
  | .vUint w n =>
    match parseUint64 value with
    | none => (.vUint w n, some (.invalidNumber value))
    | some x => (.vUint w (x % 2 ^ w), none)
  | .vFloat q =>
    match parseFloat value with
    | none => (.vFloat q, some (.invalidNumber value))
    | some x => (.vFloat x, none)
  | .vBool _ => (.vBool (value == "true"), none)
  | v => (v, some (.unsupportedType (kindName v)))

/-- Models `appendWithDelimiter` (lines 222-226). -/
def appendWithDelimiter (pre name : List Char) : List Char :=
  pre ++ name ++ ['.']

/-- Models `popWithDelimiter` (lines 228-230): drop the segment and its
delimiter from the end. -/
def popWithDelimiter (pre name : List Char) : List Char :=
  pre.take (pre.length - (name.length + 1))

mutual

/-- Models `decode` (lines 62-106): allocate-and-descend through
pointers, walk struct fields, otherwise fail with `unsupported type`.
Returns the updated per-call state, the updated value and the error. -/
def decode (pl : PathLookuper) (din : DecodeIn) (v : Val) (fullName : List Char) :
    DecodeIn × Val × Option Err :=
  match v with
  | .vPtrNil z =>
    let res := decode pl din z fullName
    (res.1, .vPtrSome res.2.1, res.2.2)
  | .vPtrSome e =>
    let res := decode pl din e fullName
    (res.1, .vPtrSome res.2.1, res.2.2)
  | .vStruct fs =>
    let res := decodeFields pl din fs fullName
    (res.1, .vStruct res.2.1, res.2.2)
  | v => (din, v, some (.unsupportedType (kindName v)))

/-- The field loop of `decode` (lines 72-100), threading the name buffer
across iterations exactly as the Go local `fullName` is. -/
def decodeFields (pl : PathLookuper) (din : DecodeIn) (fs : List (Tags × Val))
    (fullName : List Char) : DecodeIn × List (Tags × Val) × Option Err :=
  match fs with
  | [] => (din, [], none)
  | (tags, fv) :: rest =>
    match findInTag tags with
    | none =>
      let res := decodeFields pl din rest fullName
      (res.1, (tags, fv) :: res.2.1, res.2.2)
    | some (name, tt) =>
      if isStructVal fv then
        let pushed := appendWithDelimiter fullName name
        let res := decode pl din fv pushed
        match res.2.2 with
        | some e => (res.1, (tags, res.2.1) :: rest, some e)
        | none =>
          let restored := popWithDelimiter pushed name
          let res2 := decodeFields pl res.1 rest restored
          (res2.1, (tags, res.2.1) :: res2.2.1, res2.2.2)
      else
        let pushed := fullName ++ name
        let gv := getValue pl din pushed tt
        let restored := pushed.take (pushed.length - name.length)
        match gv.2 with
        | none =>
          let res := decodeFields pl gv.1 rest restored
          (res.1, (tags, fv) :: res.2.1, res.2.2)
        | some raw =>
          let sf := setField fv raw
          match sf.2 with
          | some e => (gv.1, (tags, sf.1) :: rest, some e)
          | none =>
            let res := decodeFields pl gv.1 rest restored
            (res.1, (tags, sf.1) :: res.2.1, res.2.2)

end

/-- The `encoding/json` whole-body decode, external to the repository:
given the body and the destination it returns the updated destination
and an error message on malformed input. -/
abbrev JsonDecoder := String → Val → Val × Option String

/-- The content-type gate of `Unmarshal` (lines 24-29): decode the body
iff the `Content-Type` header is exactly `"application/json"`. -/
def jsonStep (jd : JsonDecoder) (r : Request) (dest : Val) : Val × Option Err :=
  if headerGet r "Content-Type" = "application/json" then
    let res := jd r.body dest
    match res.2 with
    | some e => (res.1, some (.bodyDecode e))
    | none => (res.1, none)
  else (dest, none)

/-- The part of `Unmarshal` after the JSON gate (lines 31-44): require a
non-nil pointer destination, then walk the pointee with a fresh
`decodeIn` and an empty name buffer. -/
def afterBody (pl : PathLookuper) (r : Request) (d : Val) : Val × Option Err :=
  match d with
  | .vPtrSome v =>
    let res := decode pl ⟨r, none, []⟩ v []
    (.vPtrSome res.2.1, res.2.2)
  | d => (d, some .invalidDestination)

/-- Models `Unmarshal` (lines 23-45), returning the (possibly partially)
mutated destination next to the error. -/
def Unmarshal (jd : JsonDecoder) (pl : PathLookuper) (r : Request) (dest : Val) :
    Val × Option Err :=
  let js := jsonStep jd r dest
  match js.2 with
  | some e => (js.1, some e)
  | none => afterBody pl r js.1

/-- The shape left after unwrapping every pointer level, the value
`setField` ultimately coerces into. -/
def stripPtrVal : Val → Val
  | .vPtrNil z => stripPtrVal z
  | .vPtrSome e => stripPtrVal e
  | v => v

/-- The kinds `setField` can coerce a raw string into directly. -/
def scalarKind : Val → Bool
  | .vStr _ => true
  | .vInt _ _ => true
  | .vUint _ _ => true
  | .vFloat _ => true
  | .vBool _ => true
  | _ => false

/-- The annotation choice exactly as the claim words it: the first of
query, path, header, cookie whose key is present on the member wins,
with presence read as `Lookup` succeeding regardless of the tag value.
Written from the spec sentence, to be compared against `findInTag`. -/
def findInTagPresenceSpec (tags : Tags) : Option (List Char × TagType) :=
  match lookupTag tags "query" with
  | some tag => some (tag.data, .query)
  | none =>
  match lookupTag tags "path" with
  | some tag => some (tag.data, .path)
  | none =>
  match lookupTag tags "header" with
  | some tag => some (tag.data, .header)
  | none =>
  match lookupTag tags "cookie" with
  | some tag => some (tag.data, .cookie)
  | none => none

/-- The four source annotations in their fixed priority order. -/
def sourceKeys : List (String × TagType) :=
  [("query", .query), ("path", .path), ("header", .header), ("cookie", .cookie)]

/-- The amended priority rule: the first source key carrying a non-empty
tag value wins; empty-valued annotations count as absent. -/
def findInTagNonEmptySpec (tags : Tags) : Option (List Char × TagType) :=
  sourceKeys.findSome? (fun kt => (tagNonEmpty tags kt.1).map (fun t => (t.data, kt.2)))

/-- Shape of a destination for the query round-trip property: nested
records of query-annotated members whose scalar members are strings
(the one shape on which coercion is the identity, so that values can be
re-derived verbatim). -/
inductive QShape where
  | leaf : QShape
  | node (children : List (String × QShape)) : QShape

/-- Tag table of a member annotated `query:"n"` only. -/
def qTags (n : String) : Tags := [("query", n)]

mutual

/-- Destination value described by a shape, with every field zeroed. -/
def toVal : QShape → Val
  | .leaf => .vStr ""
  | .node cs => .vStruct (toFields cs)

/-- Field list of a `node` shape. -/
def toFields : List (String × QShape) → List (Tags × Val)
  | [] => []
  | (n, c) :: rest => (qTags n, toVal c) :: toFields rest

end

mutual

/-- The dotted field paths of a shape, as segment lists. -/
def qpaths : QShape → List (List String)
  | .leaf => [[]]
  | .node cs => qpathsF cs

/-- The dotted field paths contributed by a child list. -/
def qpathsF : List (String × QShape) → List (List String)
  | [] => []
  | (n, c) :: rest => (qpaths c).map (fun p => n :: p) ++ qpathsF rest

end

/-- The member names of a child list. -/
def childNames (cs : List (String × QShape)) : List String := cs.map (fun p => p.1)

mutual

/-- Well-formed shapes: every annotation name non-empty and sibling
names distinct (so the dotted paths address members unambiguously). -/
def wfShape : QShape → Bool
  | .leaf => true
  | .node cs => wfChildren cs

/-- Well-formedness of a child list. -/
def wfChildren : List (String × QShape) → Bool
  | [] => true
  | (n, c) :: rest =>
    !(n == "") && !((childNames rest).contains n) && wfShape c && wfChildren rest

end

/-- The dot-joined lookup key of a segment list (bytes). -/
def joinDots : List String → List Char
  | [] => []
  | [s] => s.data
  | s :: rest => s.data ++ '.' :: joinDots rest

mutual

/-- Re-derives the value stored at a dotted path of a populated
destination, navigating by the members' query annotations. -/
def getPath : Val → List String → Option String
  | .vStr s, [] => some s
  | .vStruct fs, n :: p => getPathF fs n p
  | _, _ => none

/-- Path lookup within a field list. -/
def getPathF : List (Tags × Val) → String → List String → Option String
  | [], _, _ => none
  | (tags, v) :: rest, n, p =>
    if lookupTag tags "query" = some n then getPath v p else getPathF rest n p

end

/-- Invariant of the lazily-built query cache: it is either still unset
or holds exactly the request's parsed query table. -/
def queryInv (r : Request) (din : DecodeIn) : Prop :=
  din.r = r ∧ (din.queryVals = none ∨ din.queryVals = some r.queryTable)

/-! General lemmas about the name buffer and the field walk. -/

/-- Truncating an appended segment restores the buffer (line 92). -/
theorem take_append_self (p n : List Char) :
    (p ++ n).take ((p ++ n).length - n.length) = p := by
  simp [List.length_append]

/-- `popWithDelimiter` is the exact inverse of `appendWithDelimiter`. -/
theorem pop_append (p n : List Char) :
    popWithDelimiter (appendWithDelimiter p n) n = p := by
  have h : (appendWithDelimiter p n).length - (n.length + 1) = p.length := by
    simp [appendWithDelimiter]
  rw [popWithDelimiter, h, appendWithDelimiter]
  rw [show p ++ n ++ ['.'] = p ++ (n ++ ['.']) from by simp]
  exact List.take_left p (n ++ ['.'])

/-- An error while walking a field slice aborts: the remaining fields are
returned untouched and the error propagates. -/
theorem decodeFields_append_err (pl : PathLookuper) (fs1 : List (Tags × Val)) :
    ∀ (din : DecodeIn) (fn : List Char) (din1 : DecodeIn) (fs1' : List (Tags × Val))
      (e : Err) (fs2 : List (Tags × Val)),
      decodeFields pl din fs1 fn = (din1, fs1', some e) →
      decodeFields pl din (fs1 ++ fs2) fn = (din1, fs1' ++ fs2, some e) := by
  induction fs1 with
  | nil =>
    intro din fn din1 fs1' e fs2 h
    simp [decodeFields] at h
  | cons head rest ih =>
    obtain ⟨tags, fv⟩ := head
    intro din fn din1 fs1' e fs2 h
    cases hf : findInTag tags with
    | none =>
      rcases hr : decodeFields pl din rest fn with ⟨dinr, fsr, er⟩
      simp only [decodeFields, hf, hr, Prod.mk.injEq] at h
      obtain ⟨rfl, rfl, rfl⟩ := h
      simp [decodeFields, hf, ih _ _ _ _ _ fs2 hr]
    | some nt =>
      obtain ⟨name, tt⟩ := nt
      by_cases hs : isStructVal fv = true
      · rcases hd : decode pl din fv (appendWithDelimiter fn name) with ⟨dind, fvd, ed⟩
        cases ed with
        | some e0 =>
          simp only [decodeFields, hf, hs, if_true, hd, Prod.mk.injEq,
            Option.some.injEq] at h
          obtain ⟨rfl, rfl, rfl⟩ := h
          simp [decodeFields, hf, hs, hd]
        | none =>
          rcases hr : decodeFields pl dind rest
              (popWithDelimiter (appendWithDelimiter fn name) name) with ⟨dinr, fsr, er⟩
          simp only [decodeFields, hf, hs, if_true, hd, hr, Prod.mk.injEq] at h
          obtain ⟨rfl, rfl, rfl⟩ := h
          simp [decodeFields, hf, hs, hd, ih _ _ _ _ _ fs2 hr]
      · rcases hg : getValue pl din (fn ++ name) tt with ⟨ding, vv⟩
        cases vv with
        | none =>
          rcases hr : decodeFields pl ding rest fn with ⟨dinr, fsr, er⟩
          simp only [decodeFields, hf, hs, if_false, Bool.false_eq_true, hg,
            take_append_self, hr, Prod.mk.injEq] at h
          obtain ⟨rfl, rfl, rfl⟩ := h
          simp [decodeFields, hf, hs, hg, ih _ _ _ _ _ fs2 hr]
        | some raw =>
          rcases hsf : setField fv raw with ⟨fv', esf⟩
          cases esf with
          | some e0 =>
            simp only [decodeFields, hf, hs, if_false, Bool.false_eq_true, hg, hsf,
              Prod.mk.injEq, Option.some.injEq] at h
            obtain ⟨rfl, rfl, rfl⟩ := h
            simp [decodeFields, hf, hs, hg, hsf]
          | none =>
            rcases hr : decodeFields pl ding rest fn with ⟨dinr, fsr, er⟩
            simp only [decodeFields, hf, hs, if_false, Bool.false_eq_true, hg, hsf,
              take_append_self, hr, Prod.mk.injEq] at h
            obtain ⟨rfl, rfl, rfl⟩ := h
            simp [decodeFields, hf, hs, hg, hsf, ih _ _ _ _ _ fs2 hr]

/-- Walking a field slice without error continues into the remaining
fields with the same name buffer and the threaded per-call state. -/
theorem decodeFields_append_ok (pl : PathLookuper) (fs1 : List (Tags × Val)) :
    ∀ (din : DecodeIn) (fn : List Char) (din1 : DecodeIn) (fs1' : List (Tags × Val))
      (fs2 : List (Tags × Val)),
      decodeFields pl din fs1 fn = (din1, fs1', none) →
      decodeFields pl din (fs1 ++ fs2) fn =
        ((decodeFields pl din1 fs2 fn).1, fs1' ++ (decodeFields pl din1 fs2 fn).2.1,
         (decodeFields pl din1 fs2 fn).2.2) := by
  induction fs1 with
  | nil =>
    intro din fn din1 fs1' fs2 h
    simp only [decodeFields, Prod.mk.injEq] at h
    obtain ⟨rfl, rfl, _⟩ := h
    simp
  | cons head rest ih =>
    obtain ⟨tags, fv⟩ := head
    intro din fn din1 fs1' fs2 h
    cases hf : findInTag tags with
    | none =>
      rcases hr : decodeFields pl din rest fn with ⟨dinr, fsr, er⟩
      simp only [decodeFields, hf, hr, Prod.mk.injEq] at h
      obtain ⟨rfl, rfl, rfl⟩ := h
      simp [decodeFields, hf, ih _ _ _ _ fs2 hr]
    | some nt =>
      obtain ⟨name, tt⟩ := nt
      by_cases hs : isStructVal fv = true
      · rcases hd : decode pl din fv (appendWithDelimiter fn name) with ⟨dind, fvd, ed⟩
        cases ed with
        | some e0 =>
          simp only [decodeFields, hf, hs, if_true, hd, Prod.mk.injEq] at h
          exact absurd h.2.2 (by simp)
        | none =>
          rcases hr : decodeFields pl dind rest
              (popWithDelimiter (appendWithDelimiter fn name) name) with ⟨dinr, fsr, er⟩
          rw [pop_append] at hr
          simp only [decodeFields, hf, hs, if_true, hd, pop_append, hr,
            Prod.mk.injEq] at h
          obtain ⟨rfl, rfl, rfl⟩ := h
          simp [decodeFields, hf, hs, hd, pop_append, ih _ _ _ _ fs2 hr]
      · rcases hg : getValue pl din (fn ++ name) tt with ⟨ding, vv⟩
        cases vv with
        | none =>
          rcases hr : decodeFields pl ding rest fn with ⟨dinr, fsr, er⟩
          simp only [decodeFields, hf, hs, if_false, Bool.false_eq_true, hg,
            take_append_self, hr, Prod.mk.injEq] at h
          obtain ⟨rfl, rfl, rfl⟩ := h
          simp [decodeFields, hf, hs, hg, take_append_self, ih _ _ _ _ fs2 hr]
        | some raw =>
          rcases hsf : setField fv raw with ⟨fv', esf⟩
          cases esf with
          | some e0 =>
            simp only [decodeFields, hf, hs, if_false, Bool.false_eq_true, hg, hsf,
              Prod.mk.injEq] at h
            exact absurd h.2.2 (by simp)
          | none =>
            rcases hr : decodeFields pl ding rest fn with ⟨dinr, fsr, er⟩
            simp only [decodeFields, hf, hs, if_false, Bool.false_eq_true, hg, hsf,
              take_append_self, hr, Prod.mk.injEq] at h
            obtain ⟨rfl, rfl, rfl⟩ := h
            simp [decodeFields, hf, hs, hg, hsf, take_append_self, ih _ _ _ _ fs2 hr]

/-- `setField` on a value whose pointer-stripped shape is not a coercible
scalar fails with the `unsupported type` error naming that shape. -/
theorem setField_unsupported (v : Val) (raw : String)
    (h : scalarKind (stripPtrVal v) = false) :
    (setField v raw).2 = some (.unsupportedType (kindName (stripPtrVal v))) := by
  match v with
  | .vPtrNil z =>
    have ih := setField_unsupported z raw (by simpa [stripPtrVal] using h)
    simpa [setField, stripPtrVal] using ih
  | .vPtrSome e =>
    have ih := setField_unsupported e raw (by simpa [stripPtrVal] using h)
    simpa [setField, stripPtrVal] using ih
  | .vStr s => simp [scalarKind, stripPtrVal] at h
  | .vInt w n => simp [scalarKind, stripPtrVal] at h
  | .vUint w n => simp [scalarKind, stripPtrVal] at h
  | .vFloat q => simp [scalarKind, stripPtrVal] at h
  | .vBool b => simp [scalarKind, stripPtrVal] at h
  | .vStruct fs => simp [setField, stripPtrVal, kindName]
  | .vUnsup k => simp [setField, stripPtrVal, kindName]

/-- A query-only member with a non-empty name is picked up as a query
annotation. -/
theorem findInTag_qTags (n : String) (h : ¬ n = "") :
    findInTag (qTags n) = some (n.data, .query) := by
  simp [findInTag, qTags, tagNonEmpty, lookupTag, h]

/-- Under the cache invariant, a query lookup reads the request's query
table and preserves the invariant. -/
theorem getValue_query_inv (pl : PathLookuper) (r : Request) (din : DecodeIn)
    (name : List Char) (h : queryInv r din) :
    (getValue pl din name .query).2 = queryFirst r.queryTable (String.mk name) ∧
    queryInv r (getValue pl din name .query).1 := by
  obtain ⟨hr, hq⟩ := h
  rcases hq with hq | hq <;> simp [getValue, hq, hr, queryInv]

/-- Every path of a child list starts with one of the child names. -/
theorem qpathsF_head (cs : List (String × QShape)) (p : List String)
    (hp : p ∈ qpathsF cs) : ∃ n tl, p = n :: tl ∧ n ∈ childNames cs := by
  induction cs with
  | nil => simp [qpathsF] at hp
  | cons head rest ih =>
    obtain ⟨n, c⟩ := head
    simp only [qpathsF, List.mem_append, List.mem_map] at hp
    rcases hp with ⟨q, _, rfl⟩ | hp
    · exact ⟨n, q, rfl, by simp [childNames]⟩
    · obtain ⟨m, tl, rfl, hm⟩ := ih hp
      exact ⟨m, tl, rfl, by simp [childNames] at hm ⊢; exact Or.inr hm⟩

/-- Joining a non-final segment inserts the delimiter. -/
theorem joinDots_cons (n : String) (tl : List String) (h : tl ≠ []) :
    joinDots (n :: tl) = n.data ++ '.' :: joinDots tl := by
  cases tl with
  | nil => exact absurd rfl h
  | cons s r => simp [joinDots]

/-- Walking the fields of a well-formed all-string query shape with every
dotted key present succeeds, keeps the query-cache invariant, and stores
each key's first query value at the corresponding path. -/
theorem roundtripAux (pl : PathLookuper) (r : Request) (cs : List (String × QShape)) :
    ∀ (din : DecodeIn) (pre : List Char),
      queryInv r din →
      wfChildren cs = true →
      (∀ p ∈ qpathsF cs,
        (queryFirst r.queryTable (String.mk (pre ++ joinDots p))).isSome = true) →
      (decodeFields pl din (toFields cs) pre).2.2 = none ∧
      queryInv r (decodeFields pl din (toFields cs) pre).1 ∧
      (∀ p ∈ qpathsF cs,
        getPath (.vStruct (decodeFields pl din (toFields cs) pre).2.1) p =
          queryFirst r.queryTable (String.mk (pre ++ joinDots p))) := by
  match cs with
  | [] =>
    intro din pre hinv _ _
    refine ⟨by simp [toFields, decodeFields], by simpa [toFields, decodeFields] using hinv, ?_⟩
    intro p hp
    simp [qpathsF] at hp
  | (n, c) :: rest =>
    intro din pre hinv hwf hkeys
    cases c with
    | leaf =>
      simp only [wfChildren, Bool.and_eq_true, Bool.not_eq_true'] at hwf
      obtain ⟨⟨⟨hn, hnc⟩, hwfc⟩, hwfr⟩ := hwf
      have hn' : ¬ n = "" := by simpa using hn
      have hf := findInTag_qTags n hn'
      have hmem_rest : ∀ p ∈ qpathsF rest, p ∈ qpathsF ((n, QShape.leaf) :: rest) := by
        intro p hp
        simp [qpathsF, List.mem_append, hp]
      have hnot_n : ∀ m, m ∈ childNames rest → ¬ (m = n) := by
        intro m hm he
        subst he
        simp at hnc
        exact hnc hm
      have hkey1 : [n] ∈ qpathsF ((n, QShape.leaf) :: rest) := by
        simp [qpathsF, qpaths]
      have hsome := hkeys [n] hkey1
      rw [show joinDots [n] = n.data from by simp [joinDots]] at hsome
      obtain ⟨v, hv⟩ := Option.isSome_iff_exists.mp hsome
      have hq := getValue_query_inv pl r din (pre ++ n.data) hinv
      have hgv2 : (getValue pl din (pre ++ n.data) .query).2 = some v := by
        rw [hq.1, hv]
      have ihrest := roundtripAux pl r rest (getValue pl din (pre ++ n.data) .query).1 pre
        hq.2 hwfr (by
          intro p hp
          exact hkeys p (hmem_rest p hp))
      have hmain : decodeFields pl din (toFields ((n, QShape.leaf) :: rest)) pre =
          ((decodeFields pl (getValue pl din (pre ++ n.data) .query).1 (toFields rest) pre).1,
           (qTags n, .vStr v) ::
             (decodeFields pl (getValue pl din (pre ++ n.data) .query).1 (toFields rest) pre).2.1,
           (decodeFields pl (getValue pl din (pre ++ n.data) .query).1 (toFields rest) pre).2.2) := by
        simp only [toFields, toVal, decodeFields, hf, isStructVal, Bool.false_eq_true, if_false,
          hgv2, setField, take_append_self]
      refine ⟨by rw [hmain]; exact ihrest.1, by rw [hmain]; exact ihrest.2.1, ?_⟩
      intro p hp
      rw [hmain]
      simp only [qpathsF, qpaths, List.map, List.mem_append, List.mem_singleton] at hp
      rcases hp with rfl | hp
      · simp only [getPath, getPathF, qTags, lookupTag, List.find?, String.mk]
        simp [joinDots, hv, lookupTag]
      · obtain ⟨m, tl, rfl, hm⟩ := qpathsF_head rest _ hp
        have hne : ¬ (n = m) := fun he => hnot_n m hm he.symm
        have hstep : getPath
            (.vStruct ((qTags n, Val.vStr v) ::
              (decodeFields pl (getValue pl din (pre ++ n.data) .query).1 (toFields rest) pre).2.1))
            (m :: tl) =
            getPath
              (.vStruct
                ((decodeFields pl (getValue pl din (pre ++ n.data) .query).1 (toFields rest) pre).2.1))
              (m :: tl) := by
          simp [getPath, getPathF, qTags, lookupTag, hne]
        rw [hstep]
        exact ihrest.2.2 (m :: tl) hp
    | node cs' =>
      simp only [wfChildren, Bool.and_eq_true, Bool.not_eq_true'] at hwf
      obtain ⟨⟨⟨hn, hnc⟩, hwfc⟩, hwfr⟩ := hwf
      have hn' : ¬ n = "" := by simpa using hn
      have hf := findInTag_qTags n hn'
      have hmem_rest : ∀ p ∈ qpathsF rest, p ∈ qpathsF ((n, QShape.node cs') :: rest) := by
        intro p hp
        simp [qpathsF, List.mem_append, hp]
      have hnot_n : ∀ m, m ∈ childNames rest → ¬ (m = n) := by
        intro m hm he
        subst he
        simp at hnc
        exact hnc hm
      have hwfc' : wfChildren cs' = true := by simpa [wfShape] using hwfc
      have hkeys_inner : ∀ p ∈ qpathsF cs',
          (queryFirst r.queryTable
            (String.mk (appendWithDelimiter pre n.data ++ joinDots p))).isSome = true := by
        intro p hp
        obtain ⟨m, tl, rfl, _⟩ := qpathsF_head cs' p hp
        have hmem : n :: m :: tl ∈ qpathsF ((n, QShape.node cs') :: rest) := by
          simp only [qpathsF, List.mem_append, List.mem_map]
          exact Or.inl ⟨m :: tl, by simpa [qpaths] using hp, rfl⟩
        have := hkeys (n :: m :: tl) hmem
        rw [joinDots_cons n (m :: tl) (by simp)] at this
        simpa [appendWithDelimiter, List.append_assoc] using this
      have ihinner := roundtripAux pl r cs' din (appendWithDelimiter pre n.data)
        hinv hwfc' hkeys_inner
      have hd : decode pl din (.vStruct (toFields cs')) (appendWithDelimiter pre n.data) =
          ((decodeFields pl din (toFields cs') (appendWithDelimiter pre n.data)).1,
           .vStruct (decodeFields pl din (toFields cs') (appendWithDelimiter pre n.data)).2.1,
           (decodeFields pl din (toFields cs') (appendWithDelimiter pre n.data)).2.2) := by
        simp only [decode]
      have ihrest := roundtripAux pl r rest
        (decodeFields pl din (toFields cs') (appendWithDelimiter pre n.data)).1 pre
        ihinner.2.1 hwfr (by
          intro p hp
          exact hkeys p (hmem_rest p hp))
      have hmain : decodeFields pl din (toFields ((n, QShape.node cs') :: rest)) pre =
          ((decodeFields pl
              (decodeFields pl din (toFields cs') (appendWithDelimiter pre n.data)).1
              (toFields rest) pre).1,
           (qTags n, .vStruct
              (decodeFields pl din (toFields cs') (appendWithDelimiter pre n.data)).2.1) ::
             (decodeFields pl
               (decodeFields pl din (toFields cs') (appendWithDelimiter pre n.data)).1
               (toFields rest) pre).2.1,
           (decodeFields pl
             (decodeFields pl din (toFields cs') (appendWithDelimiter pre n.data)).1
             (toFields rest) pre).2.2) := by
        rcases hin : decodeFields pl din (toFields cs') (appendWithDelimiter pre n.data)
          with ⟨din2, fs2, e2⟩
        have he2 : e2 = none := by
          have := ihinner.1
          rw [hin] at this
          exact this
        subst he2
        rw [hin] at hd
        simp only [toFields, toVal, decodeFields, hf, isStructVal, if_true, hd, hin,
          pop_append]
      refine ⟨by rw [hmain]; exact ihrest.1, by rw [hmain]; exact ihrest.2.1, ?_⟩
      intro p hp
      rw [hmain]
      simp only [qpathsF, List.mem_append, List.mem_map] at hp
      rcases hp with ⟨q, hq', rfl⟩ | hp
      · have hq'' : q ∈ qpathsF cs' := by simpa [qpaths] using hq'
        obtain ⟨m, tl, rfl, _⟩ := qpathsF_head cs' q hq''
        have hstep : getPath
            (.vStruct ((qTags n, Val.vStruct
                (decodeFields pl din (toFields cs') (appendWithDelimiter pre n.data)).2.1) ::
              (decodeFields pl
                (decodeFields pl din (toFields cs') (appendWithDelimiter pre n.data)).1
                (toFields rest) pre).2.1))
            (n :: m :: tl) =
            getPath
              (.vStruct
                (decodeFields pl din (toFields cs') (appendWithDelimiter pre n.data)).2.1)
              (m :: tl) := by
          simp [getPath, getPathF, qTags, lookupTag]
        rw [hstep, ihinner.2.2 (m :: tl) hq'']
        rw [joinDots_cons n (m :: tl) (by simp)]
        simp [appendWithDelimiter, List.append_assoc]
      · obtain ⟨m, tl, rfl, hm⟩ := qpathsF_head rest _ hp
        have hne : ¬ (n = m) := fun he => hnot_n m hm he.symm
        have hstep : getPath
            (.vStruct ((qTags n, Val.vStruct
                (decodeFields pl din (toFields cs') (appendWithDelimiter pre n.data)).2.1) ::
              (decodeFields pl
                (decodeFields pl din (toFields cs') (appendWithDelimiter pre n.data)).1
                (toFields rest) pre).2.1))
            (m :: tl) =
            getPath
              (.vStruct
                ((decodeFields pl
                  (decodeFields pl din (toFields cs') (appendWithDelimiter pre n.data)).1
                  (toFields rest) pre).2.1))
              (m :: tl) := by
          simp [getPath, getPathF, qTags, lookupTag, hne]
        rw [hstep]
        exact ihrest.2.2 (m :: tl) hp
termination_by sizeOf cs
decreasing_by
  all_goals simp_wf <;> omega

/-! Claim theorems. -/

/-- C1: `Unmarshal` performs the whole-body JSON decode into the
destination exactly when the `Content-Type` header equals
`"application/json"`; for any other value (including variants with
parameters) the decode step is skipped entirely: the result does not
consult the JSON decoder and the gate leaves the body unread (its
outcome is unchanged under any replacement of the body). -/
theorem unmarshal_json_gate (jd jd' : JsonDecoder) (pl : PathLookuper) (r : Request)
    (dest : Val) (b : String) :
    (headerGet r "Content-Type" = "application/json" →
      Unmarshal jd pl r dest =
        (match (jd r.body dest).2 with
         | some e => ((jd r.body dest).1, some (.bodyDecode e))
         | none => afterBody pl r (jd r.body dest).1)) ∧
    (headerGet r "Content-Type" ≠ "application/json" →
      Unmarshal jd pl r dest = afterBody pl r dest ∧
      jsonStep jd' { r with body := b } dest = (dest, none)) := by
  constructor
  · intro h
    rcases hj : (jd r.body dest).2 with _ | e <;>
      simp [Unmarshal, jsonStep, h, hj]
  · intro h
    have h' : headerGet { r with body := b } "Content-Type" ≠ "application/json" := h
    simp [Unmarshal, jsonStep, h, h']

/-- C1 witness: a request whose content type is
`"application/json; charset=utf-8"` skips body decoding: `Unmarshal`
ignores a JSON decoder that would fail, and the gate ignores the body. -/
theorem unmarshal_json_gate_witness :
    Unmarshal (fun _ v => (v, some "boom")) defaultPathLookuper
        ⟨[("Content-Type", "application/json; charset=utf-8")], [], [], "body"⟩
        (.vStr "d") =
      afterBody defaultPathLookuper
        ⟨[("Content-Type", "application/json; charset=utf-8")], [], [], "body"⟩
        (.vStr "d") ∧
    jsonStep (fun _ v => (v, some "boom"))
        { (⟨[("Content-Type", "application/json; charset=utf-8")], [], [], "body"⟩ : Request)
          with body := "other" } (.vStr "d") =
      (.vStr "d", none) :=
  (unmarshal_json_gate (fun _ v => (v, some "boom")) (fun _ v => (v, some "boom"))
    defaultPathLookuper
    ⟨[("Content-Type", "application/json; charset=utf-8")], [], [], "body"⟩
    (.vStr "d") "other").2 (by decide)

/-- C2 counterexample: on a member tagged `query:"" path:"p"` the walker
picks the path annotation, while the claim's first-present-wins rule
(with presence read as tag-key presence) picks the empty query
annotation. -/
theorem annotation_priority_counterexample :
    findInTag [("query", ""), ("path", "p")] = some (['p'], .path) ∧
    findInTagPresenceSpec [("query", ""), ("path", "p")] = some ([], .query) ∧
    (some ((['p'] : List Char), TagType.path) ≠ some (([] : List Char), TagType.query)) :=
  ⟨by decide, by decide, by decide⟩

/-- C2 amended: the walker picks the first of query, path, header, cookie
carrying a non-empty tag value (empty-valued annotations count as
absent), and a member with none of the four non-empty is skipped
entirely: no lookup, no mutation, traversal continues. -/
theorem annotation_priority_nonempty :
    (∀ tags : Tags, findInTag tags = findInTagNonEmptySpec tags) ∧
    (∀ (pl : PathLookuper) (din : DecodeIn) (tags : Tags) (fv : Val)
       (rest : List (Tags × Val)) (fn : List Char),
      findInTag tags = none →
      decodeFields pl din ((tags, fv) :: rest) fn =
        ((decodeFields pl din rest fn).1, (tags, fv) :: (decodeFields pl din rest fn).2.1,
         (decodeFields pl din rest fn).2.2)) := by
  constructor
  · intro tags
    simp only [findInTag, findInTagNonEmptySpec, sourceKeys, List.findSome?]
    cases h1 : tagNonEmpty tags "query" <;>
      cases h2 : tagNonEmpty tags "path" <;>
        cases h3 : tagNonEmpty tags "header" <;>
          cases h4 : tagNonEmpty tags "cookie" <;>
            simp [h1, h2, h3, h4, List.findSome?]
  · intro pl din tags fv rest fn h
    simp only [decodeFields, h]

/-- C2 amended witness: a member carrying only a `json` annotation is
skipped with no mutation and no state change. -/
theorem annotation_priority_nonempty_witness :
    decodeFields defaultPathLookuper ⟨⟨[], [], [], ""⟩, none, []⟩
        [([("json", "j")], .vStr "s")] [] =
      ((decodeFields defaultPathLookuper ⟨⟨[], [], [], ""⟩, none, []⟩ [] []).1,
       ([("json", "j")], .vStr "s") ::
         (decodeFields defaultPathLookuper ⟨⟨[], [], [], ""⟩, none, []⟩ [] []).2.1,
       (decodeFields defaultPathLookuper ⟨⟨[], [], [], ""⟩, none, []⟩ [] []).2.2) :=
  annotation_priority_nonempty.2 defaultPathLookuper ⟨⟨[], [], [], ""⟩, none, []⟩
    [("json", "j")] (.vStr "s") [] [] (by decide)

/-- C3: the header resolver always reports the value present — it returns
exactly the header's value, the empty string when the header is absent —
so a header-sourced string field pre-set to any prior value is
overwritten to `""` by decoding when the request lacks the header. -/
theorem header_always_present :
    (∀ (pl : PathLookuper) (din : DecodeIn) (name : List Char),
      getValue pl din name .header = (din, some (headerGet din.r (String.mk name)))) ∧
    (∀ (pl : PathLookuper) (din : DecodeIn) (tags : Tags) (hname : List Char)
       (prior : String) (rest : List (Tags × Val)) (fn : List Char),
      findInTag tags = some (hname, .header) →
      headerGet din.r (String.mk (fn ++ hname)) = "" →
      decodeFields pl din ((tags, .vStr prior) :: rest) fn =
        ((decodeFields pl din rest fn).1,
         (tags, .vStr "") :: (decodeFields pl din rest fn).2.1,
         (decodeFields pl din rest fn).2.2)) := by
  constructor
  · intro pl din name
    simp [getValue]
  · intro pl din tags hname prior rest fn hf hh
    simp only [decodeFields, hf, isStructVal, getValue, hh, setField,
      take_append_self, Bool.false_eq_true, if_false]

/-- C3 witness: with no `X-Token` header, a header-annotated string field
pre-set to `"default"` is overwritten to the empty string. -/
theorem header_always_present_witness :
    decodeFields defaultPathLookuper ⟨⟨[], [], [], ""⟩, none, []⟩
        [([("header", "X-Token")], .vStr "default")] [] =
      ((decodeFields defaultPathLookuper ⟨⟨[], [], [], ""⟩, none, []⟩ [] []).1,
       ([("header", "X-Token")], .vStr "") ::
         (decodeFields defaultPathLookuper ⟨⟨[], [], [], ""⟩, none, []⟩ [] []).2.1,
       (decodeFields defaultPathLookuper ⟨⟨[], [], [], ""⟩, none, []⟩ [] []).2.2) :=
  header_always_present.2 defaultPathLookuper ⟨⟨[], [], [], ""⟩, none, []⟩
    [("header", "X-Token")] "X-Token".data "default" [] [] (by decide) (by decide)

/-- C4: the first error aborts the walk immediately — fields after the
failing one are left untouched, fields mutated before it keep their new
values — and the error propagates out of `Unmarshal`; in particular two
query ints given `"5"` and `"abc"` yield an `invalidNumber` error with
the first field already decoded to 5. -/
theorem decode_fail_fast :
    (∀ (pl : PathLookuper) (din : DecodeIn) (fs1 fs2 : List (Tags × Val)) (fn : List Char)
       (din1 : DecodeIn) (fs1' : List (Tags × Val)) (e : Err),
      decodeFields pl din fs1 fn = (din1, fs1', some e) →
      decodeFields pl din (fs1 ++ fs2) fn = (din1, fs1' ++ fs2, some e)) ∧
    (Unmarshal (fun _ v => (v, none)) defaultPathLookuper
        ⟨[], [("a", ["5"]), ("b", ["abc"])], [], ""⟩
        (.vPtrSome (.vStruct [([("query", "a")], .vInt 64 0), ([("query", "b")], .vInt 64 0)])) =
      (.vPtrSome (.vStruct [([("query", "a")], .vInt 64 5), ([("query", "b")], .vInt 64 0)]),
        some (.invalidNumber "abc"))) := by
  constructor
  · intro pl din fs1 fs2 fn din1 fs1' e h
    exact decodeFields_append_err pl fs1 din fn din1 fs1' e fs2 h
  · simp [Unmarshal, jsonStep, afterBody, headerGet, decode, decodeFields, getValue, setField,
      findInTag, tagNonEmpty, lookupTag, queryFirst, lookupQ, isStructVal,
      parseInt64, parseDigits, digitVal, wrapInt]

/-- C4 witness: a failing integer field aborts the walk, leaving a later
field untouched while the error propagates. -/
theorem decode_fail_fast_witness :
    decodeFields defaultPathLookuper ⟨⟨[], [("b", ["abc"])], [], ""⟩, none, []⟩
        ([([("query", "b")], .vInt 64 0)] ++ [([("query", "c")], .vStr "keep")]) [] =
      (⟨⟨[], [("b", ["abc"])], [], ""⟩, some [("b", ["abc"])], []⟩,
       [([("query", "b")], .vInt 64 0)] ++ [([("query", "c")], .vStr "keep")],
       some (.invalidNumber "abc")) :=
  decode_fail_fast.1 defaultPathLookuper ⟨⟨[], [("b", ["abc"])], [], ""⟩, none, []⟩
    [([("query", "b")], .vInt 64 0)] [([("query", "c")], .vStr "keep")] []
    ⟨⟨[], [("b", ["abc"])], [], ""⟩, some [("b", ["abc"])], []⟩
    [([("query", "b")], .vInt 64 0)] (.invalidNumber "abc")
    (by simp [decodeFields, getValue, setField, findInTag, tagNonEmpty, lookupTag,
      queryFirst, lookupQ, isStructVal, parseInt64, parseDigits, digitVal])

/-- C5: boolean coercion sets the field to true exactly when the raw
value is literally `"true"`, and never returns an error. -/
theorem bool_coercion_exact (b : Bool) (s : String) :
    setField (.vBool b) s = (.vBool (s == "true"), none) ∧
    ((s == "true") = true ↔ s = "true") := by
  constructor
  · simp [setField]
  · exact beq_iff_eq ..

/-- C6 counterexample: an unsupported-shaped member whose resolver
reports absence does not fail the walk (the member is skipped), and a
pointer-to-pointer-to-int member — not a pointer to a scalar — decodes
successfully rather than raising `unsupportedType`. -/
theorem unsupported_member_counterexample :
    (decodeFields defaultPathLookuper ⟨⟨[], [], [], ""⟩, none, []⟩
        [([("query", "x")], .vUnsup "slice")] []).2.2 = none ∧
    decodeFields defaultPathLookuper ⟨⟨[], [("x", ["7"])], [], ""⟩, none, []⟩
        [([("query", "x")], .vPtrNil (.vPtrNil (.vInt 64 0)))] [] =
      (⟨⟨[], [("x", ["7"])], [], ""⟩, some [("x", ["7"])], []⟩,
       [([("query", "x")], .vPtrSome (.vPtrSome (.vInt 64 7)))], none) := by
  constructor
  · simp [decodeFields, getValue, findInTag, tagNonEmpty, lookupTag, queryFirst, lookupQ,
      isStructVal]
  · simp [decodeFields, getValue, setField, findInTag, tagNonEmpty, lookupTag, queryFirst,
      lookupQ, isStructVal, parseInt64, parseDigits, digitVal, wrapInt]

/-- C6 amended: when a source-annotated non-struct member whose shape
after stripping all pointer levels is not a coercible scalar receives a
present raw value, the walk fails with the `unsupportedType` error
(earlier members having succeeded); members with absent values are
skipped without error. -/
theorem unsupported_member_fails (pl : PathLookuper) (din : DecodeIn)
    (fs1 : List (Tags × Val)) (tags : Tags) (fv : Val) (rest : List (Tags × Val))
    (fn : List Char) (din1 : DecodeIn) (fs1' : List (Tags × Val)) (name : List Char)
    (tt : TagType)
    (h1 : decodeFields pl din fs1 fn = (din1, fs1', none))
    (h2 : findInTag tags = some (name, tt))
    (h3 : isStructVal fv = false)
    (h4 : scalarKind (stripPtrVal fv) = false)
    (h5 : ((getValue pl din1 (fn ++ name) tt).2).isSome = true) :
    (decodeFields pl din (fs1 ++ (tags, fv) :: rest) fn).2.2 =
      some (.unsupportedType (kindName (stripPtrVal fv))) := by
  rw [decodeFields_append_ok pl fs1 din fn din1 fs1' ((tags, fv) :: rest) h1]
  obtain ⟨raw, hraw⟩ := Option.isSome_iff_exists.mp h5
  rcases hsf : setField fv raw with ⟨fv', esf⟩
  have herr := setField_unsupported fv raw h4
  rw [hsf] at herr
  simp only at herr
  subst herr
  rcases hg : getValue pl din1 (fn ++ name) tt with ⟨ding, vv⟩
  rw [hg] at hraw
  simp only at hraw
  subst hraw
  simp [decodeFields, h2, h3, hg, hsf]

/-- C6 amended witness: a query-annotated slice-kind member with a
present value fails the walk with `unsupportedType "slice"`. -/
theorem unsupported_member_fails_witness :
    (decodeFields defaultPathLookuper ⟨⟨[], [("x", ["7"])], [], ""⟩, none, []⟩
        ([] ++ ([("query", "x")], .vUnsup "slice") :: []) []).2.2 =
      some (.unsupportedType (kindName (stripPtrVal (.vUnsup "slice")))) :=
  unsupported_member_fails defaultPathLookuper ⟨⟨[], [("x", ["7"])], [], ""⟩, none, []⟩
    [] [("query", "x")] (.vUnsup "slice") [] [] ⟨⟨[], [("x", ["7"])], [], ""⟩, none, []⟩
    [] ['x'] .query
    (by simp [decodeFields]) (by decide) (by decide) (by decide)
    (by decide)

/-- C7: a scalar member whose resolver reports absence is left completely
untouched — no error, no mutation — and traversal continues with the
next member at the restored name path; concretely, a cookie-annotated
pointer-to-string field stays nil without a matching cookie and points
to the cookie's value with one. -/
theorem absent_resolver_frame :
    (∀ (pl : PathLookuper) (din : DecodeIn) (tags : Tags) (fv : Val)
       (rest : List (Tags × Val)) (fn name : List Char) (tt : TagType),
      findInTag tags = some (name, tt) →
      isStructVal fv = false →
      (getValue pl din (fn ++ name) tt).2 = none →
      decodeFields pl din ((tags, fv) :: rest) fn =
        ((decodeFields pl (getValue pl din (fn ++ name) tt).1 rest fn).1,
         (tags, fv) :: (decodeFields pl (getValue pl din (fn ++ name) tt).1 rest fn).2.1,
         (decodeFields pl (getValue pl din (fn ++ name) tt).1 rest fn).2.2)) ∧
    (decodeFields defaultPathLookuper ⟨⟨[], [], [], ""⟩, none, []⟩
        [([("cookie", "session")], .vPtrNil (.vStr ""))] [] =
      (⟨⟨[], [], [], ""⟩, none, []⟩, [([("cookie", "session")], .vPtrNil (.vStr ""))], none)) ∧
    (decodeFields defaultPathLookuper ⟨⟨[], [], [("session", "tok")], ""⟩, none, []⟩
        [([("cookie", "session")], .vPtrNil (.vStr ""))] [] =
      (⟨⟨[], [], [("session", "tok")], ""⟩, none, [("session", "tok")]⟩,
       [([("cookie", "session")], .vPtrSome (.vStr "tok"))], none)) := by
  refine ⟨?_, ?_, ?_⟩
  · intro pl din tags fv rest fn name tt hf hs hv
    simp only [decodeFields, hf, hs, hv, take_append_self, Bool.false_eq_true, if_false]
  · simp [decodeFields, findInTag, tagNonEmpty, lookupTag, isStructVal, getValue,
      findCookieVal, requestCookie]
  · simp [decodeFields, findInTag, tagNonEmpty, lookupTag, isStructVal, getValue,
      findCookieVal, requestCookie, setField, take_append_self]

/-- C7 witness: a cookie-annotated pointer field with no matching cookie
is left untouched and the walk continues. -/
theorem absent_resolver_frame_witness :
    decodeFields defaultPathLookuper ⟨⟨[], [], [], ""⟩, none, []⟩
        [([("cookie", "session")], .vPtrNil (.vStr ""))] [] =
      ((decodeFields defaultPathLookuper
          (getValue defaultPathLookuper ⟨⟨[], [], [], ""⟩, none, []⟩
            ([] ++ "session".data) .cookie).1 [] []).1,
       ([("cookie", "session")], .vPtrNil (.vStr "")) ::
         (decodeFields defaultPathLookuper
           (getValue defaultPathLookuper ⟨⟨[], [], [], ""⟩, none, []⟩
             ([] ++ "session".data) .cookie).1 [] []).2.1,
       (decodeFields defaultPathLookuper
         (getValue defaultPathLookuper ⟨⟨[], [], [], ""⟩, none, []⟩
           ([] ++ "session".data) .cookie).1 [] []).2.2) :=
  absent_resolver_frame.1 defaultPathLookuper ⟨⟨[], [], [], ""⟩, none, []⟩
    [("cookie", "session")] (.vPtrNil (.vStr "")) [] [] "session".data .cookie
    (by decide) (by decide) (by decide)

/-- C8: the dotted name path mirrors the live recursion stack — popping
after a nested descent restores exactly the buffer that was pushed — and
a nested record annotated `query:"name"` with members `first` and `last`
is resolved against the literal keys `name.first` and `name.last`. -/
theorem name_path_stack (pre n : List Char) :
    popWithDelimiter (appendWithDelimiter pre n) n = pre ∧
    Unmarshal (fun _ v => (v, none)) defaultPathLookuper
        ⟨[], [("name.first", ["John"]), ("name.last", ["Doe"])], [], ""⟩
        (.vPtrSome (.vStruct [([("query", "name")],
            .vStruct [([("query", "first")], .vStr ""), ([("query", "last")], .vStr "")])])) =
      (.vPtrSome (.vStruct [([("query", "name")],
            .vStruct [([("query", "first")], .vStr "John"), ([("query", "last")], .vStr "Doe")])]),
        none) := by
  constructor
  · exact pop_append pre n
  · simp [Unmarshal, jsonStep, afterBody, headerGet, decode, decodeFields, getValue, setField,
      findInTag, tagNonEmpty, lookupTag, queryFirst, lookupQ, isStructVal,
      appendWithDelimiter, popWithDelimiter]

/-- C9: for a well-formed all-string destination shape and a query table
holding at least one value under every dotted field path, decoding the
request succeeds and re-deriving each dotted path from the populated
destination returns that key's first query value. -/
theorem query_roundtrip (jd : JsonDecoder) (pl : PathLookuper) (r : Request)
    (cs : List (String × QShape))
    (hct : headerGet r "Content-Type" ≠ "application/json")
    (hwf : wfChildren cs = true)
    (hkeys : ∀ p ∈ qpathsF cs,
      (queryFirst r.queryTable (String.mk (joinDots p))).isSome = true) :
    Unmarshal jd pl r (.vPtrSome (toVal (.node cs))) =
      (.vPtrSome (decode pl ⟨r, none, []⟩ (toVal (.node cs)) []).2.1, none) ∧
    ∀ p ∈ qpathsF cs,
      getPath (decode pl ⟨r, none, []⟩ (toVal (.node cs)) []).2.1 p =
        queryFirst r.queryTable (String.mk (joinDots p)) := by
  have hinv : queryInv r ⟨r, none, []⟩ := ⟨rfl, Or.inl rfl⟩
  have haux := roundtripAux pl r cs ⟨r, none, []⟩ [] hinv hwf (by
    intro p hp
    simpa using hkeys p hp)
  have hd : decode pl ⟨r, none, []⟩ (toVal (QShape.node cs)) [] =
      ((decodeFields pl ⟨r, none, []⟩ (toFields cs) []).1,
       .vStruct (decodeFields pl ⟨r, none, []⟩ (toFields cs) []).2.1,
       (decodeFields pl ⟨r, none, []⟩ (toFields cs) []).2.2) := by
    simp only [toVal, decode]
  constructor
  · simp only [Unmarshal, jsonStep, if_neg hct, afterBody, hd, haux.1]
  · intro p hp
    rw [hd]
    have := haux.2.2 p hp
    simpa using this

/-- C9 witness: the nested shape `name.first` / `name.last` / `q` decoded
against a matching query table round-trips every key's value. -/
theorem query_roundtrip_witness :
    (Unmarshal (fun _ v => (v, none)) defaultPathLookuper
        ⟨[], [("name.first", ["John"]), ("name.last", ["Doe"]), ("q", ["x"])], [], ""⟩
        (.vPtrSome (toVal (.node [("name", .node [("first", .leaf), ("last", .leaf)]),
          ("q", .leaf)]))) =
      (.vPtrSome (decode defaultPathLookuper
          ⟨⟨[], [("name.first", ["John"]), ("name.last", ["Doe"]), ("q", ["x"])], [], ""⟩,
            none, []⟩
          (toVal (.node [("name", .node [("first", .leaf), ("last", .leaf)]), ("q", .leaf)]))
          []).2.1, none)) ∧
    ∀ p ∈ qpathsF [("name", .node [("first", .leaf), ("last", .leaf)]), ("q", .leaf)],
      getPath (decode defaultPathLookuper
          ⟨⟨[], [("name.first", ["John"]), ("name.last", ["Doe"]), ("q", ["x"])], [], ""⟩,
            none, []⟩
          (toVal (.node [("name", .node [("first", .leaf), ("last", .leaf)]), ("q", .leaf)]))
          []).2.1 p =
        queryFirst [("name.first", ["John"]), ("name.last", ["Doe"]), ("q", ["x"])]
          (String.mk (joinDots p)) :=
  query_roundtrip (fun _ v => (v, none)) defaultPathLookuper
    ⟨[], [("name.first", ["John"]), ("name.last", ["Doe"]), ("q", ["x"])], [], ""⟩
    [("name", .node [("first", .leaf), ("last", .leaf)]), ("q", .leaf)]
    (by decide)
    (by simp [wfChildren, wfShape, childNames])
    (by
      intro p hp
      simp only [qpathsF, qpaths, List.map, List.mem_append, List.mem_singleton,
        List.mem_cons, List.not_mem_nil, or_false] at hp
      rcases hp with (rfl | rfl) | rfl <;>
        simp [joinDots, queryFirst, lookupQ])

/-- C10 counterexample: coercing `"300"` into a width-8 unsigned field
completes normally — no error and no panic — storing the truncated value
44, where the claim asserts a runtime panic. -/
theorem narrow_int_counterexample :
    Unmarshal (fun _ v => (v, none)) defaultPathLookuper ⟨[], [("a", ["300"])], [], ""⟩
        (.vPtrSome (.vStruct [([("query", "a")], .vUint 8 0)])) =
      (.vPtrSome (.vStruct [([("query", "a")], .vUint 8 44)]), none) := by
  simp [Unmarshal, jsonStep, afterBody, headerGet, decode, decodeFields, getValue, setField,
    findInTag, tagNonEmpty, lookupTag, queryFirst, lookupQ, isStructVal,
    parseUint64, parseDigits, digitVal]

/-- C10 amended: scalar coercion parses integers at 64-bit width, so an
in-64-bit-range value for a narrower field is not an `invalidNumber`
error; the reflective store then truncates to the field's width
(two's-complement wrap for signed fields) with no error and no panic. -/
theorem narrow_int_truncates :
    (∀ (w : Nat) (n : Nat) (s : String) (x : Nat), parseUint64 s = some x →
      setField (.vUint w n) s = (.vUint w (x % 2 ^ w), none)) ∧
    (∀ (w : Nat) (n : Int) (s : String) (x : Int), parseInt64 s = some x →
      setField (.vInt w n) s = (.vInt w (wrapInt w x), none)) := by
  constructor
  · intro w n s x h
    simp [setField, h]
  · intro w n s x h
    simp [setField, h]

/-- C10 amended witness: `"300"` stored into 8-bit fields truncates to
`300 % 2 ^ 8` (resp. the signed wrap of 300) without error. -/
theorem narrow_int_truncates_witness :
    setField (.vUint 8 0) "300" = (.vUint 8 (300 % 2 ^ 8), none) ∧
    setField (.vInt 8 0) "300" = (.vInt 8 (wrapInt 8 300), none) :=
  ⟨narrow_int_truncates.1 8 0 "300" 300 (by decide),
   narrow_int_truncates.2 8 0 "300" 300 (by decide)⟩

end Httpio
